import Mathlib

/-
Verification development for the AEGIS peering configuration generator
(ops/peering/generate.py). The Python module is embedded shallowly:
YAML documents become an inductive value type, Python dicts become
insertion-ordered association lists with the dict operations get,
item assignment and update, the record store becomes an explicit
immutable snapshot of the data directory, the output filesystem is
threaded explicitly, and exceptions become an Except monad. The
template engine, the clock and the external checker are opaque
collaborators passed in as parameters.
-/

namespace Aegis

/-- YAML-style values as parsed from the data documents. -/
inductive Val where
  | vNone
  | vBool (b : Bool)
  | vInt (n : Int)
  | vStr (s : String)
  | vList (l : List Val)
  | vDict (d : List (String × Val))

/-- A parsed YAML mapping: an insertion-ordered dictionary with string keys,
as produced by yaml.safe_load for a mapping document. -/
abbrev Rec := List (String × Val)

/-- Python truthiness of a value, as used by the `if peer.get('enabled', True)` test. -/
def truthy : Val → Bool
  | .vNone => false
  | .vBool b => b
  | .vInt n => n != 0
  | .vStr s => s != ""
  | .vList l => !l.isEmpty
  | .vDict d => !d.isEmpty

/-- Dictionary lookup, `d.get(k)`: the value stored at key `k`, if any. -/
def dGet {α : Type} : List (String × α) → String → Option α
  | [], _ => none
  | (k', v) :: rest, k => if k' = k then some v else dGet rest k

/-- Dictionary item assignment `d[k] = v`: replace the value in place when the
key is present, append a fresh entry at the end otherwise (Python dict
insertion-order semantics). -/
def dSet {α : Type} : List (String × α) → String → α → List (String × α)
  | [], k, v => [(k, v)]
  | (k', v') :: rest, k, v =>
      if k' = k then (k, v) :: rest else (k', v') :: dSet rest k v

/-- Python `d.update(ov)`: assign every key-value pair of `ov` into `d`,
in `ov`'s iteration order. This is the shallow override merge of the source:
`peer.update(overrides)`. -/
def dUpdate {α : Type} (d ov : List (String × α)) : List (String × α) :=
  ov.foldl (fun acc kv => dSet acc kv.1 kv.2) d

/-- The keys of a dictionary, in insertion order. -/
def dKeys {α : Type} (d : List (String × α)) : List String := d.map Prod.fst

/-- Errors raised by the generator: FileNotFoundError carries its message, and
any fault surfaced by the external template engine is a TemplateError. -/
inductive Err where
  | fileNotFound (msg : String)
  | templateError (msg : String)

/-- The message printed for an exception, `str(e)` in the source's
error-reporting f-strings. -/
def errMsg : Err → String
  | .fileNotFound m => m
  | .templateError m => m

/-- Content of one data file: `none` models an empty document (yaml.safe_load
returns None, coerced to an empty dict by `or \x7b\x7d` in load_yaml),
`some r` a parsed mapping. -/
abbrev Doc := Option Rec

/-- A snapshot of the data directory read by the generator: the optional
global.yaml document, and the named documents under data/nodes and
data/peers. Presence of an entry models existence of the file on disk. -/
structure Store where
  globalDoc : Option Doc
  nodeDocs : List (String × Doc)
  peerDocs : List (String × Doc)

/-- Presence lookup for a named document inside one data subdirectory:
`none` models a missing file (path.exists() is false). -/
def lookupDoc : List (String × Doc) → String → Option Doc
  | [], _ => none
  | (k, d) :: rest, name => if k = name then some d else lookupDoc rest name

/-- Embedding of PeeringManager.load_yaml: a missing file raises
FileNotFoundError, an existing file parses to its document, with an empty
document coerced to the empty dict. -/
def load_yaml (path : String) (doc : Option Doc) : Except Err Rec :=
  match doc with
  | none => .error (.fileNotFound ("YAML file not found: " ++ path))
  | some none => .ok []
  | some (some r) => .ok r

/-- Path of the global configuration document. -/
def globalPath : String := "data/global.yaml"

/-- Embedding of PeeringManager.load_global_config: an explicit existence
check with a dedicated message, then load_yaml. -/
def load_global_config (st : Store) : Except Err Rec :=
  match st.globalDoc with
  | none => .error (.fileNotFound ("Global configuration not found: " ++ globalPath))
  | some d => load_yaml globalPath (some d)

/-- Embedding of PeeringManager.load_peer: read data/peers/NAME.yaml. -/
def load_peer (st : Store) (peer_name : String) : Except Err Rec :=
  load_yaml ("data/peers/" ++ peer_name ++ ".yaml") (lookupDoc st.peerDocs peer_name)

/-- Embedding of PeeringManager.load_node: read data/nodes/NAME.yaml. -/
def load_node (st : Store) (node_name : String) : Except Err Rec :=
  load_yaml ("data/nodes/" ++ node_name ++ ".yaml") (lookupDoc st.nodeDocs node_name)

/-- Embedding of PeeringManager.list_nodes: the stems of the files under
data/nodes, in directory iteration order. -/
def list_nodes (st : Store) : List String := st.nodeDocs.map Prod.fst

/-- Embedding of PeeringManager.list_peers. -/
def list_peers (st : Store) : List String := st.peerDocs.map Prod.fst

/-- String content of a scalar value, as used where the source interpolates a
peer name into a path. -/
def asStr : Val → String
  | .vStr s => s
  | _ => ""

/-- The node's declared peer list, `node_config.get('peers', [])`, read as a
list of names. -/
def peerNamesOf (node_config : Rec) : List String :=
  match dGet node_config "peers" with
  | some (.vList l) => l.map asStr
  | some _ => []
  | none => []

/-- The node's override partial record for one peer,
`node_config.get('overrides', \x7b\x7d).get(peer_name, \x7b\x7d)`. -/
def overrideFor (node_config : Rec) (peer_name : String) : Rec :=
  match dGet node_config "overrides" with
  | some (.vDict ovs) =>
      match dGet ovs peer_name with
      | some (.vDict ov) => ov
      | _ => []
  | _ => []

/-- The effective enabled flag of a resolved peer,
`peer.get('enabled', True)` under Python truthiness. -/
def effEnabled (r : Rec) : Bool :=
  match dGet r "enabled" with
  | some v => truthy v
  | none => true

/-- The peer-resolution loop of PeeringManager.build_context: for each declared
peer name in order, load its record (a missing record prints a warning and is
skipped), apply the node's override on top, and keep the resolved peer when
its effective enabled flag is truthy. Returns the resolved peer sequence and
the warnings printed, both in loop order. -/
def resolvePeers (st : Store) (node_config : Rec) : List String → List Rec × List String
  | [] => ([], [])
  | peer_name :: rest =>
      let tail := resolvePeers st node_config rest
      match load_peer st peer_name with
      | .error _ =>
          (tail.1, ("Warning: Peer configuration not found: " ++ peer_name) :: tail.2)
      | .ok peer =>
          let resolved := dUpdate peer (overrideFor node_config peer_name)
          if effEnabled resolved then (resolved :: tail.1, tail.2) else tail

/-- The rendering context assembled by build_context: the template variables
`global`, `node`, `peers`, `generated_by`, `generated_at`. -/
structure Ctx where
  globalConf : Rec
  node : Rec
  peers : List Rec
  generated_by : String
  generated_at : String

/-- Embedding of PeeringManager.build_context: load the global and node
records (either missing is fatal), resolve the node's peers, and assemble the
context. `now` stands for the datetime.now(timezone.utc).isoformat() reading.
Returns the context together with the warnings printed while resolving. -/
def build_context (st : Store) (now : String) (node_name : String) :
    Except Err (Ctx × List String) :=
  match load_global_config st with
  | .error e => .error e
  | .ok global_config =>
      match load_node st node_name with
      | .error e => .error e
      | .ok node_config =>
          let rw := resolvePeers st node_config (peerNamesOf node_config)
          .ok ({ globalConf := global_config, node := node_config, peers := rw.1,
                 generated_by := "AEGIS Peering Manager", generated_at := now }, rw.2)

/-- Embedding of PeeringManager.render_config: build the context and hand it
to the template engine, an opaque collaborator `render` that may fail. -/
def render_config (render : Ctx → Except Err String) (st : Store) (now : String)
    (node_name : String) : Except Err (String × List String) :=
  match build_context st now node_name with
  | .error e => .error e
  | .ok (context, warns) =>
      match render context with
      | .error e => .error e
      | .ok s => .ok (s, warns)

/-- A filesystem path, as a list of components. -/
abbrev Path := List String

/-- The output filesystem: contents of files the generator has written. -/
abbrev FS := Path → Option String

/-- Writing a file: open(path, 'w') followed by write truncates and replaces
the content at that path, leaving every other path untouched. -/
def writeFile (fs : FS) (p : Path) (content : String) : FS :=
  fun q => if q = p then some content else fs q

/-- Display form of a path, used in the Generated: message. -/
def pathToString (p : Path) : String := String.intercalate "/" p

/-- Embedding of PeeringManager.generate: render the configuration for the
node and, when an output path is given, create the parent directories and
write it there, printing a Generated message. Returns the configuration, the
filesystem after the call, and the lines printed. -/
def generate (render : Ctx → Except Err String) (st : Store) (now : String)
    (fs : FS) (node_name : String) (output_path : Option Path) :
    Except Err (String × FS × List String) :=
  match render_config render st now node_name with
  | .error e => .error e
  | .ok (config, warns) =>
      match output_path with
      | some p =>
          .ok (config, writeFile fs p config, warns ++ ["Generated: " ++ pathToString p])
      | none => .ok (config, fs, warns)

/-- The loop body of PeeringManager.generate_all over the listed nodes: each
node is generated to OUTPUT_DIR/NODE/bird.conf; a per-node exception is caught,
printed with the node's identity, and that node is left out of the result map. -/
def genAllGo (render : Ctx → Except Err String) (st : Store) (now : String)
    (od : Path) : List String → FS → List (String × String) × FS × List String
  | [], fs => ([], fs, [])
  | n :: rest, fs =>
      match generate render st now fs n (some (od ++ [n, "bird.conf"])) with
      | .ok (config, fs', logs) =>
          let t := genAllGo render st now od rest fs'
          ((n, config) :: t.1, t.2.1, logs ++ t.2.2)
      | .error e =>
          let t := genAllGo render st now od rest fs
          (t.1, t.2.1, ("Error generating config for " ++ n ++ ": " ++ errMsg e) :: t.2.2)

/-- Embedding of PeeringManager.generate_all: when no output directory is
supplied the default self.output_dir (BASE/output) is used, then every listed
node is generated with per-node failure containment. -/
def generate_all (render : Ctx → Except Err String) (st : Store) (now : String)
    (fs : FS) (output_dir : Option Path) : List (String × String) × FS × List String :=
  let od := match output_dir with
    | some d => d
    | none => ["output"]
  genAllGo render st now od (list_nodes st) fs

/-- The separator line printed around each dry-run configuration. -/
def sepLine : String := String.mk (List.replicate 60 '=')

/-- The dry-run banner printed before one node's configuration in main. -/
def dryRunBanner (n : String) : List String :=
  ["\n" ++ sepLine, "# Configuration for: " ++ n, sepLine]

/-- Embedding of the `--all` branch of main: generate_all receives the chosen
output directory, or None when --dry-run is set; with --dry-run, each produced
configuration is then printed with its banner. -/
def main_all (render : Ctx → Except Err String) (st : Store) (now : String)
    (fs : FS) (output_dir : Path) (dry_run : Bool) :
    List (String × String) × FS × List String :=
  let r := generate_all render st now fs (if dry_run then none else some output_dir)
  if dry_run then
    (r.1, r.2.1, r.2.2 ++ r.1.foldr (fun nc acc => dryRunBanner nc.1 ++ [nc.2] ++ acc) [])
  else r

/-- Embedding of the single-node branch of main: the output path is forwarded
only when --output is given and --dry-run is not set; the configuration is
printed when --dry-run is set or no --output was given. -/
def main_node (render : Ctx → Except Err String) (st : Store) (now : String)
    (fs : FS) (node : String) (output : Option Path) (dry_run : Bool) :
    Except Err (String × FS × List String) :=
  let output_path := match output with
    | some p => if dry_run then none else some p
    | none => none
  match generate render st now fs node output_path with
  | .error e => .error e
  | .ok (config, fs', logs) =>
      .ok (config, fs', logs ++ (if dry_run || output.isNone then [config] else []))

/-- Outcome of running the external checker binary on the transient file:
it exits with a code and captured stderr, the binary is missing
(FileNotFoundError), or the fixed 30-second timeout expires. -/
inductive CheckerOutcome where
  | exited (code : Nat) (stderr : String)
  | binaryMissing
  | timedOut

/-- os.unlink on the transient file: the file is gone afterwards. -/
def unlink (f : Option String) : Option String :=
  match f with
  | _ => none

/-- Embedding of PeeringManager.validate_config: write the configuration to a
transient file, run the external checker on it, classify the outcome
(exit 0 valid; nonzero exit invalid with the captured diagnostic; missing
binary a soft pass; timeout a failure), and unlink the transient file in the
finally block on every path. Returns the boolean result, the final state of
the transient file, and the lines printed. -/
def validate_config (checker : String → CheckerOutcome) (config : String) :
    Bool × Option String × List String :=
  let temp_file : Option String := some config
  let step : Bool × List String :=
    match checker config with
    | .exited 0 _ => (true, ["Configuration is valid"])
    | .exited (_ + 1) stderr =>
        (false, ["Configuration validation failed:\n" ++ stderr])
    | .binaryMissing =>
        (true, ["Warning: BIRD not installed, skipping validation",
                "Install BIRD to enable config validation: apt install bird2"])
    | .timedOut => (false, ["Warning: BIRD validation timed out"])
  (step.1, unlink temp_file, step.2)

section DictLemmas

variable {α : Type}

theorem dGet_dSet_self (d : List (String × α)) (k : String) (v : α) :
    dGet (dSet d k v) k = some v := by
  induction d with
  | nil => simp [dSet, dGet]
  | cons hd tl ih =>
      obtain ⟨k', v'⟩ := hd
      by_cases h : k' = k
      · simp [dSet, dGet, h]
      · simp [dSet, dGet, h, ih]

theorem dGet_dSet_ne (d : List (String × α)) (k k' : String) (v : α) (h : k' ≠ k) :
    dGet (dSet d k v) k' = dGet d k' := by
  induction d with
  | nil => simp [dSet, dGet, Ne.symm h]
  | cons hd tl ih =>
      obtain ⟨k0, v0⟩ := hd
      by_cases h0 : k0 = k
      · subst h0
        simp [dSet, dGet, Ne.symm h]
      · simp only [dSet, if_neg h0, dGet]
        by_cases h1 : k0 = k'
        · simp [h1]
        · simp [h1, ih]

theorem dKeys_dSet (d : List (String × α)) (k : String) (v : α) :
    dKeys (dSet d k v) = if k ∈ dKeys d then dKeys d else dKeys d ++ [k] := by
  induction d with
  | nil => simp [dSet, dKeys]
  | cons hd tl ih =>
      obtain ⟨k0, v0⟩ := hd
      by_cases h0 : k0 = k
      · subst h0
        simp [dSet, dKeys]
      · have hne : ¬ k = k0 := fun hh => h0 hh.symm
        simp only [dSet, if_neg h0, dKeys, List.map_cons, List.mem_cons, hne, false_or]
        have ih' : List.map Prod.fst (dSet tl k v) =
            if k ∈ List.map Prod.fst tl then List.map Prod.fst tl
            else List.map Prod.fst tl ++ [k] := ih
        rw [ih']
        by_cases hm : k ∈ List.map Prod.fst tl
        · simp [hm]
        · simp [hm]

theorem mem_dKeys_iff_dGet (d : List (String × α)) (k : String) :
    k ∈ dKeys d ↔ (dGet d k).isSome := by
  induction d with
  | nil => simp [dKeys, dGet]
  | cons hd tl ih =>
      obtain ⟨k0, v0⟩ := hd
      by_cases h0 : k0 = k
      · subst h0
        simp [dKeys, dGet]
      · have hne : ¬ k = k0 := fun hh => h0 hh.symm
        simp only [dKeys, List.map_cons, List.mem_cons, hne, false_or, dGet, if_neg h0]
        exact ih

theorem mem_dKeys_dSet_of_mem (d : List (String × α)) (k k' : String) (v : α)
    (h : k' ∈ dKeys d) : k' ∈ dKeys (dSet d k v) := by
  rw [dKeys_dSet]
  by_cases hm : k ∈ dKeys d
  · rw [if_pos hm]; exact h
  · rw [if_neg hm]; exact List.mem_append_left _ h

theorem mem_dKeys_dSet_self (d : List (String × α)) (k : String) (v : α) :
    k ∈ dKeys (dSet d k v) := by
  rw [dKeys_dSet]
  by_cases hm : k ∈ dKeys d
  · rw [if_pos hm]; exact hm
  · rw [if_neg hm]; exact List.mem_append_right _ (by simp)

theorem nodup_dKeys_dSet (d : List (String × α)) (k : String) (v : α)
    (h : (dKeys d).Nodup) : (dKeys (dSet d k v)).Nodup := by
  rw [dKeys_dSet]
  by_cases hm : k ∈ dKeys d
  · rw [if_pos hm]; exact h
  · rw [if_neg hm]
    refine List.Nodup.append h (List.nodup_singleton k) ?_
    intro a ha hb
    rw [List.mem_singleton] at hb
    exact hm (hb ▸ ha)

theorem mem_dKeys_dUpdate_of_mem (d ov : List (String × α)) (k : String)
    (h : k ∈ dKeys d) : k ∈ dKeys (dUpdate d ov) := by
  induction ov generalizing d with
  | nil => simpa [dUpdate] using h
  | cons hd tl ih =>
      obtain ⟨k0, v0⟩ := hd
      show k ∈ dKeys (dUpdate (dSet d k0 v0) tl)
      exact ih (dSet d k0 v0) (mem_dKeys_dSet_of_mem d k0 k v0 h)

theorem mem_dKeys_dUpdate_right (d ov : List (String × α)) (k : String)
    (h : k ∈ dKeys ov) : k ∈ dKeys (dUpdate d ov) := by
  induction ov generalizing d with
  | nil => simp [dKeys] at h
  | cons hd tl ih =>
      obtain ⟨k0, v0⟩ := hd
      show k ∈ dKeys (dUpdate (dSet d k0 v0) tl)
      rcases List.mem_cons.mp h with h0 | h1
      · simp only [h0]
        exact mem_dKeys_dUpdate_of_mem _ tl k0 (mem_dKeys_dSet_self d k0 v0)
      · exact ih (dSet d k0 v0) h1

theorem dKeys_dUpdate_of_subset (d ov : List (String × α))
    (h : ∀ k ∈ dKeys ov, k ∈ dKeys d) : dKeys (dUpdate d ov) = dKeys d := by
  induction ov generalizing d with
  | nil => rfl
  | cons hd tl ih =>
      obtain ⟨k0, v0⟩ := hd
      have hk0 : k0 ∈ dKeys d := h k0 (by simp [dKeys])
      have hset : dKeys (dSet d k0 v0) = dKeys d := by
        rw [dKeys_dSet]; simp [hk0]
      show dKeys (dUpdate (dSet d k0 v0) tl) = dKeys d
      rw [ih (dSet d k0 v0) (fun k hk => by
        rw [hset]; exact h k (List.mem_cons.mpr (Or.inr hk)))]
      exact hset

theorem nodup_dKeys_dUpdate (d ov : List (String × α))
    (h : (dKeys d).Nodup) : (dKeys (dUpdate d ov)).Nodup := by
  induction ov generalizing d with
  | nil => simpa [dUpdate] using h
  | cons hd tl ih =>
      obtain ⟨k0, v0⟩ := hd
      show (dKeys (dUpdate (dSet d k0 v0) tl)).Nodup
      exact ih (dSet d k0 v0) (nodup_dKeys_dSet d k0 v0 h)

theorem dGet_dUpdate (d ov : List (String × α)) (k : String)
    (hov : (dKeys ov).Nodup) :
    dGet (dUpdate d ov) k =
      match dGet ov k with
      | some v => some v
      | none => dGet d k := by
  induction ov generalizing d with
  | nil => simp [dUpdate, dGet]
  | cons hd tl ih =>
      obtain ⟨k0, v0⟩ := hd
      have hov' : (k0 :: dKeys tl).Nodup := hov
      have htl : (dKeys tl).Nodup := (List.nodup_cons.mp hov').2
      have hk0 : k0 ∉ dKeys tl := (List.nodup_cons.mp hov').1
      show dGet (dUpdate (dSet d k0 v0) tl) k = _
      rw [ih (dSet d k0 v0) htl]
      by_cases hk : k0 = k
      · subst hk
        have : dGet tl k0 = none := by
          cases hget : dGet tl k0 with
          | none => rfl
          | some v =>
              exact absurd ((mem_dKeys_iff_dGet tl k0).mpr (by simp [hget])) hk0
        simp [dGet, this, dGet_dSet_self]
      · have hne : ¬ k0 = k := hk
        cases hget : dGet tl k with
        | none => simp [dGet, hne, hget, dGet_dSet_ne d k0 k v0 (fun hh => hk hh.symm)]
        | some v => simp [dGet, hne, hget]

theorem dExt (d1 d2 : List (String × α)) (hkeys : dKeys d1 = dKeys d2)
    (hnd : (dKeys d1).Nodup) (h : ∀ k, dGet d1 k = dGet d2 k) : d1 = d2 := by
  induction d1 generalizing d2 with
  | nil =>
      cases d2 with
      | nil => rfl
      | cons hd tl => simp [dKeys] at hkeys
  | cons hd tl ih =>
      obtain ⟨k0, v0⟩ := hd
      cases d2 with
      | nil => simp [dKeys] at hkeys
      | cons hd2 tl2 =>
          obtain ⟨k2, v2⟩ := hd2
          have hk : k0 = k2 := by simpa [dKeys] using congrArg (fun l => l.head?) hkeys
          subst hk
          have hv : v0 = v2 := by
            have := h k0
            simpa [dGet] using this
          subst hv
          have hkeys1 : (k0 :: dKeys tl) = (k0 :: dKeys tl2) := hkeys
          have hkeys' : dKeys tl = dKeys tl2 := by
            injection hkeys1
          have hnd1 : (k0 :: dKeys tl).Nodup := hnd
          have hnd' : (dKeys tl).Nodup := (List.nodup_cons.mp hnd1).2
          have hk0tl : k0 ∉ dKeys tl := (List.nodup_cons.mp hnd1).1
          have hk0tl2 : k0 ∉ dKeys tl2 := hkeys' ▸ hk0tl
          have hget : ∀ k, dGet tl k = dGet tl2 k := by
            intro k
            by_cases hk : k0 = k
            · subst hk
              have h1 : dGet tl k0 = none := by
                cases hg : dGet tl k0 with
                | none => rfl
                | some v => exact absurd ((mem_dKeys_iff_dGet tl k0).mpr (by simp [hg])) hk0tl
              have h2 : dGet tl2 k0 = none := by
                cases hg : dGet tl2 k0 with
                | none => rfl
                | some v => exact absurd ((mem_dKeys_iff_dGet tl2 k0).mpr (by simp [hg])) hk0tl2
              rw [h1, h2]
            · have := h k
              simpa [dGet, hk] using this
          rw [ih tl2 hkeys' hnd' hget]

theorem dUpdate_nil (d : List (String × α)) : dUpdate d [] = d := rfl

theorem dGet_dUpdate_none (d ov : List (String × α)) (k : String)
    (h : dGet ov k = none) : dGet (dUpdate d ov) k = dGet d k := by
  induction ov generalizing d with
  | nil => rfl
  | cons hd tl ih =>
      obtain ⟨k0, v0⟩ := hd
      by_cases hk : k0 = k
      · simp only [dGet, if_pos hk] at h
        exact absurd h (by simp)
      · have htl : dGet tl k = none := by
          simp only [dGet, if_neg hk] at h
          exact h
        show dGet (dUpdate (dSet d k0 v0) tl) k = dGet d k
        rw [ih (dSet d k0 v0) htl,
          dGet_dSet_ne d k0 k v0 (fun hh => hk hh.symm)]

theorem dUpdate_idem (d ov : List (String × α))
    (hd : (dKeys d).Nodup) (hov : (dKeys ov).Nodup) :
    dUpdate (dUpdate d ov) ov = dUpdate d ov := by
  have hsub : ∀ k ∈ dKeys ov, k ∈ dKeys (dUpdate d ov) :=
    fun k hk => mem_dKeys_dUpdate_right d ov k hk
  have hkeys : dKeys (dUpdate (dUpdate d ov) ov) = dKeys (dUpdate d ov) :=
    dKeys_dUpdate_of_subset (dUpdate d ov) ov hsub
  have hnd : (dKeys (dUpdate (dUpdate d ov) ov)).Nodup := by
    rw [hkeys]; exact nodup_dKeys_dUpdate d ov hd
  refine dExt _ _ hkeys hnd ?_
  intro k
  rw [dGet_dUpdate (dUpdate d ov) ov k hov]
  cases hov2 : dGet ov k with
  | none => rfl
  | some v => rw [dGet_dUpdate d ov k hov, hov2]

end DictLemmas

/-- Declarative form of one iteration of the resolution loop: the peer's
contribution to the resolved sequence, namely its record with the node's
override merged on top, kept exactly when the record exists and the resolved
enabled flag holds. -/
def resolveStep (st : Store) (node_config : Rec) (p : String) : Option Rec :=
  match load_peer st p with
  | .error _ => none
  | .ok base =>
      let rp := dUpdate base (overrideFor node_config p)
      if effEnabled rp then some rp else none

/-- Declarative form of the warning printed by one iteration of the
resolution loop. -/
def warnStep (st : Store) (p : String) : Option String :=
  match load_peer st p with
  | .error _ => some ("Warning: Peer configuration not found: " ++ p)
  | .ok _ => none

theorem resolvePeers_eq (st : Store) (ncfg : Rec) (names : List String) :
    resolvePeers st ncfg names =
      (names.filterMap (resolveStep st ncfg), names.filterMap (warnStep st)) := by
  induction names with
  | nil => rfl
  | cons p rest ih =>
      simp only [resolvePeers, ih, List.filterMap_cons]
      cases hl : load_peer st p with
      | error e => simp [resolveStep, warnStep, hl]
      | ok base =>
          simp only [resolveStep, warnStep, hl]
          by_cases he : effEnabled (dUpdate base (overrideFor ncfg p))
          · simp [he]
          · simp [he]

theorem resolveStep_some (st : Store) (ncfg : Rec) (p : String) (rp : Rec)
    (h : resolveStep st ncfg p = some rp) :
    ∃ base, load_peer st p = .ok base ∧ rp = dUpdate base (overrideFor ncfg p) ∧
      effEnabled rp = true := by
  unfold resolveStep at h
  cases hl : load_peer st p with
  | error e => rw [hl] at h; exact absurd h (by simp)
  | ok base =>
      rw [hl] at h
      by_cases he : effEnabled (dUpdate base (overrideFor ncfg p))
      · simp only [he, if_true] at h
        injection h with h2
        exact ⟨base, rfl, h2.symm, h2 ▸ he⟩
      · simp [he] at h

theorem resolveStep_of_enabled (st : Store) (ncfg : Rec) (p : String) (base : Rec)
    (hl : load_peer st p = .ok base)
    (he : effEnabled (dUpdate base (overrideFor ncfg p)) = true) :
    resolveStep st ncfg p = some (dUpdate base (overrideFor ncfg p)) := by
  unfold resolveStep
  rw [hl]
  simp [he]

theorem resolveStep_none_of_absent (st : Store) (ncfg : Rec) (p : String) (e : Err)
    (hl : load_peer st p = .error e) : resolveStep st ncfg p = none := by
  unfold resolveStep
  rw [hl]

theorem effEnabled_of_mem_resolvePeers (st : Store) (ncfg : Rec) (names : List String)
    (rp : Rec) (h : rp ∈ (resolvePeers st ncfg names).1) : effEnabled rp = true := by
  rw [resolvePeers_eq] at h
  obtain ⟨p, _, hp⟩ := List.mem_filterMap.mp h
  exact (resolveStep_some st ncfg p rp hp).choose_spec.2.2

theorem build_context_inv (st : Store) (now n : String) (ctx : Ctx) (warns : List String)
    (h : build_context st now n = .ok (ctx, warns)) :
    load_global_config st = .ok ctx.globalConf ∧ load_node st n = .ok ctx.node ∧
    ctx.peers = (resolvePeers st ctx.node (peerNamesOf ctx.node)).1 ∧
    warns = (resolvePeers st ctx.node (peerNamesOf ctx.node)).2 ∧
    ctx.generated_by = "AEGIS Peering Manager" ∧ ctx.generated_at = now := by
  unfold build_context at h
  cases hg : load_global_config st with
  | error e => rw [hg] at h; exact absurd h (by simp)
  | ok g =>
      rw [hg] at h
      cases hn : load_node st n with
      | error e => rw [hn] at h; exact absurd h (by simp)
      | ok nd =>
          rw [hn] at h
          simp only [Except.ok.injEq, Prod.mk.injEq] at h
          obtain ⟨hc, hw⟩ := h
          subst hc
          subst hw
          exact ⟨rfl, rfl, rfl, rfl, rfl, rfl⟩

theorem build_context_ok (st : Store) (now n : String) (g nd : Rec)
    (hg : load_global_config st = .ok g) (hn : load_node st n = .ok nd) :
    build_context st now n = .ok
      ({ globalConf := g, node := nd,
         peers := (resolvePeers st nd (peerNamesOf nd)).1,
         generated_by := "AEGIS Peering Manager", generated_at := now },
       (resolvePeers st nd (peerNamesOf nd)).2) := by
  unfold build_context
  rw [hg, hn]

theorem load_global_config_none (st : Store) (h : st.globalDoc = none) :
    load_global_config st =
      .error (.fileNotFound ("Global configuration not found: " ++ globalPath)) := by
  unfold load_global_config
  rw [h]

theorem load_global_config_some (st : Store) (d : Doc) (h : st.globalDoc = some d) :
    ∃ g, load_global_config st = .ok g := by
  unfold load_global_config
  rw [h]
  cases d with
  | none => exact ⟨[], rfl⟩
  | some r => exact ⟨r, rfl⟩

theorem load_node_absent (st : Store) (n : String) (h : lookupDoc st.nodeDocs n = none) :
    load_node st n =
      .error (.fileNotFound ("YAML file not found: " ++
        ("data/nodes/" ++ n ++ ".yaml"))) := by
  unfold load_node load_yaml
  rw [h]

theorem load_node_present (st : Store) (n : String) (d : Doc)
    (h : lookupDoc st.nodeDocs n = some d) : ∃ nd, load_node st n = .ok nd := by
  unfold load_node load_yaml
  rw [h]
  cases d with
  | none => exact ⟨[], rfl⟩
  | some r => exact ⟨r, rfl⟩

theorem load_peer_absent (st : Store) (p : String) (h : lookupDoc st.peerDocs p = none) :
    load_peer st p =
      .error (.fileNotFound ("YAML file not found: " ++
        ("data/peers/" ++ p ++ ".yaml"))) := by
  unfold load_peer load_yaml
  rw [h]

theorem load_peer_present (st : Store) (p : String) (d : Doc)
    (h : lookupDoc st.peerDocs p = some d) : ∃ r, load_peer st p = .ok r := by
  unfold load_peer load_yaml
  rw [h]
  cases d with
  | none => exact ⟨[], rfl⟩
  | some r => exact ⟨r, rfl⟩

theorem load_peer_error_of_absent (st : Store) (p : String)
    (h : lookupDoc st.peerDocs p = none) : ∃ e, load_peer st p = .error e :=
  ⟨_, load_peer_absent st p h⟩

theorem generate_of_error (render : Ctx → Except Err String) (st : Store) (now : String)
    (fs : FS) (n : String) (op : Option Path) (e : Err)
    (h : render_config render st now n = .error e) :
    generate render st now fs n op = .error e := by
  unfold generate
  rw [h]

theorem generate_of_ok_some (render : Ctx → Except Err String) (st : Store) (now : String)
    (fs : FS) (n : String) (p : Path) (config : String) (warns : List String)
    (h : render_config render st now n = .ok (config, warns)) :
    generate render st now fs n (some p) =
      .ok (config, writeFile fs p config, warns ++ ["Generated: " ++ pathToString p]) := by
  unfold generate
  rw [h]

theorem generate_of_ok_none (render : Ctx → Except Err String) (st : Store) (now : String)
    (fs : FS) (n : String) (config : String) (warns : List String)
    (h : render_config render st now n = .ok (config, warns)) :
    generate render st now fs n none = .ok (config, fs, warns) := by
  unfold generate
  rw [h]

theorem genAllGo_configs (render : Ctx → Except Err String) (st : Store) (now : String)
    (od : Path) (names : List String) : ∀ fs : FS,
    (genAllGo render st now od names fs).1 =
      names.filterMap (fun n =>
        match render_config render st now n with
        | .ok cw => some (n, cw.1)
        | .error _ => none) := by
  induction names with
  | nil => intro fs; rfl
  | cons n rest ih =>
      intro fs
      rw [List.filterMap_cons]
      cases hr : render_config render st now n with
      | error e =>
          simp only [genAllGo,
            generate_of_error render st now fs n (some (od ++ [n, "bird.conf"])) e hr, hr]
          exact ih fs
      | ok cw =>
          obtain ⟨config, warns⟩ := cw
          simp only [genAllGo,
            generate_of_ok_some render st now fs n (od ++ [n, "bird.conf"]) config warns hr,
            hr]
          rw [ih]

theorem genAllGo_error_log (render : Ctx → Except Err String) (st : Store) (now : String)
    (od : Path) (names : List String) (n : String) (e : Err) (hn : n ∈ names)
    (he : render_config render st now n = .error e) : ∀ fs : FS,
    ("Error generating config for " ++ n ++ ": " ++ errMsg e) ∈
      (genAllGo render st now od names fs).2.2 := by
  induction names with
  | nil => cases hn
  | cons m rest ih =>
      intro fs
      rcases List.mem_cons.mp hn with h0 | h1
      · subst h0
        simp only [genAllGo,
          generate_of_error render st now fs n (some (od ++ [n, "bird.conf"])) e he]
        exact List.mem_cons_self _ _
      · cases hg : generate render st now fs m (some (od ++ [m, "bird.conf"])) with
        | ok t3 =>
            obtain ⟨config, fs', logs⟩ := t3
            simp only [genAllGo, hg]
            exact List.mem_append_right _ (ih h1 fs')
        | error e2 =>
            simp only [genAllGo, hg]
            exact List.mem_cons_of_mem _ (ih h1 fs)

/-- Global record of the concrete scenario of the specification. -/
def exGlobal : Rec := [("asn", .vInt 65000)]

/-- Peer p1 of the concrete scenario. -/
def exP1 : Rec := [("address", .vStr "10.0.0.1"), ("enabled", .vBool true)]

/-- Peer p2 of the concrete scenario. -/
def exP2 : Rec := [("address", .vStr "10.0.0.2"), ("enabled", .vBool true)]

/-- Node edge1 of the concrete scenario: peers p1 and p2, p2 disabled by
override. -/
def exNode : Rec :=
  [("peers", .vList [.vStr "p1", .vStr "p2"]),
   ("overrides", .vDict [("p2", .vDict [("enabled", .vBool false)])])]

/-- Data-directory snapshot for the concrete scenario. -/
def exStore : Store :=
  { globalDoc := some (some exGlobal),
    nodeDocs := [("edge1", some exNode)],
    peerDocs := [("p1", some exP1), ("p2", some exP2)] }

/-- Expected context for edge1 in the concrete scenario: only p1 survives. -/
def exCtx : Ctx :=
  { globalConf := exGlobal, node := exNode, peers := [exP1],
    generated_by := "AEGIS Peering Manager", generated_at := "t" }

/-- Node referencing the nonexistent peer ghost. -/
def exNodeG : Rec := [("peers", .vList [.vStr "p1", .vStr "ghost"])]

/-- Snapshot where a referenced peer record is absent. -/
def exStoreG : Store :=
  { globalDoc := some (some exGlobal),
    nodeDocs := [("edge1", some exNodeG)],
    peerDocs := [("p1", some exP1)] }

/-- Expected context for edge1 when ghost is missing. -/
def exCtxG : Ctx :=
  { globalConf := exGlobal, node := exNodeG, peers := [exP1],
    generated_by := "AEGIS Peering Manager", generated_at := "t" }

/-- Warnings expected while resolving edge1 when ghost is missing. -/
def exWarnsG : List String := ["Warning: Peer configuration not found: ghost"]

/-- A peer disabled in its base record. -/
def exP3 : Rec := [("address", .vStr "10.0.0.3"), ("enabled", .vBool false)]

/-- A node re-enabling the base-disabled peer p3 through an override. -/
def exNode2 : Rec :=
  [("peers", .vList [.vStr "p3"]),
   ("overrides", .vDict [("p3", .vDict [("enabled", .vBool true)])])]

/-- Snapshot for the re-enabling scenario. -/
def exStore2 : Store :=
  { globalDoc := some (some exGlobal),
    nodeDocs := [("edge2", some exNode2)],
    peerDocs := [("p3", some exP3)] }

/-- The resolved form of p3 after the enabling override. -/
def exP3r : Rec := [("address", .vStr "10.0.0.3"), ("enabled", .vBool true)]

/-- Snapshot with an empty global document, an empty node document and no
peer documents at all. -/
def exStoreE : Store :=
  { globalDoc := some none,
    nodeDocs := [("n", none)],
    peerDocs := [] }

/-- Expected context for edge2 in the re-enabling scenario. -/
def exCtx2 : Ctx :=
  { globalConf := exGlobal, node := exNode2, peers := [exP3r],
    generated_by := "AEGIS Peering Manager", generated_at := "t" }

/-- C1: the code evaluated at the failing input. The claim says dry-run never
writes a file, but in a dry-run generate-all run main passes no output
directory to generate_all, which falls back to the default output directory
and writes OUTPUT/NODE/bird.conf: starting from an empty filesystem, after
main_all with dry_run set the file output/edge1/bird.conf exists. -/
theorem c1_dry_run_generate_all_writes :
    ((fun _ => none : FS) ["output", "edge1", "bird.conf"] = none) ∧
    (main_all (fun _ => .ok "CFG") exStore "t" (fun _ => none) ["outdir"] true).2.1
      ["output", "edge1", "bird.conf"] = some "CFG" :=
  ⟨rfl, rfl⟩

/-- C2: build_context fails with a NotFound error exactly when the global
record or the named node record is absent; a missing referenced peer record
is never fatal: on success, every missing referenced peer yields a logged
diagnostic naming it, and every resolved peer stems from an existing
record, so the missing peers are omitted from the resolved sequence. -/
theorem c2_peer_absence_nonfatal (st : Store) (now n : String) :
    ((∃ m, build_context st now n = .error (.fileNotFound m)) ↔
      (st.globalDoc = none ∨ lookupDoc st.nodeDocs n = none)) ∧
    (∀ ctx warns, build_context st now n = .ok (ctx, warns) →
      (∀ p, p ∈ peerNamesOf ctx.node → lookupDoc st.peerDocs p = none →
        ("Warning: Peer configuration not found: " ++ p) ∈ warns) ∧
      (∀ rp, rp ∈ ctx.peers → ∃ q base, q ∈ peerNamesOf ctx.node ∧
        load_peer st q = .ok base ∧ rp = dUpdate base (overrideFor ctx.node q))) := by
  constructor
  · constructor
    · rintro ⟨m, hm⟩
      by_cases hg : st.globalDoc = none
      · exact Or.inl hg
      · right
        cases hll : lookupDoc st.nodeDocs n with
        | none => rfl
        | some d' =>
            exfalso
            cases hgd : st.globalDoc with
            | none => exact hg hgd
            | some d =>
                obtain ⟨g, hg'⟩ := load_global_config_some st d hgd
                obtain ⟨nd, hn'⟩ := load_node_present st n d' hll
                rw [build_context_ok st now n g nd hg' hn'] at hm
                exact absurd hm (by simp)
    · intro h
      rcases h with hg | hn
      · exact ⟨_, by unfold build_context; rw [load_global_config_none st hg]⟩
      · cases hgd : st.globalDoc with
        | none => exact ⟨_, by unfold build_context; rw [load_global_config_none st hgd]⟩
        | some d =>
            obtain ⟨g, hg'⟩ := load_global_config_some st d hgd
            exact ⟨_, by unfold build_context; rw [hg', load_node_absent st n hn]⟩
  · intro ctx warns h
    obtain ⟨_, _, hpeers, hwarns, _, _⟩ := build_context_inv st now n ctx warns h
    constructor
    · intro p hp habs
      rw [hwarns, resolvePeers_eq]
      refine List.mem_filterMap.mpr ⟨p, hp, ?_⟩
      unfold warnStep
      rw [load_peer_absent st p habs]
    · intro rp hrp
      rw [hpeers, resolvePeers_eq] at hrp
      obtain ⟨q, hq, hstep⟩ := List.mem_filterMap.mp hrp
      obtain ⟨base, hb, heq, _⟩ := resolveStep_some st ctx.node q rp hstep
      exact ⟨q, base, hq, hb, heq⟩

/-- Witness for C2 at the ghost scenario: resolving edge1 succeeds although
ghost has no record, and the diagnostic naming ghost is logged. -/
theorem c2_peer_absence_nonfatal_witness :
    ("Warning: Peer configuration not found: " ++ "ghost") ∈ exWarnsG := by
  have h := (c2_peer_absence_nonfatal exStoreG "t" "edge1").2 exCtxG exWarnsG rfl
  exact h.1 "ghost" (by decide) rfl

/-- C3: on a successful resolution, the resolved peer sequence is exactly the
node's declared peer list, in declared order, restricted to peers whose
record exists and whose resolved enabled flag holds (each materialized with
its override merged on top); the sequence depends only on the per-name
record lookups and override lookups, never on peer-file order or override
map order. -/
theorem c3_resolved_order (st : Store) (now n : String) (ctx : Ctx) (warns : List String)
    (h : build_context st now n = .ok (ctx, warns)) :
    ctx.peers = (peerNamesOf ctx.node).filterMap (resolveStep st ctx.node) ∧
    (∀ st2 nc2, (∀ p, load_peer st2 p = load_peer st p) →
      (∀ p, overrideFor nc2 p = overrideFor ctx.node p) →
      (peerNamesOf ctx.node).filterMap (resolveStep st2 nc2) =
        (peerNamesOf ctx.node).filterMap (resolveStep st ctx.node)) := by
  obtain ⟨_, _, hpeers, _, _, _⟩ := build_context_inv st now n ctx warns h
  constructor
  · rw [hpeers, resolvePeers_eq]
  · intro st2 nc2 h1 h2
    have hfun : resolveStep st2 nc2 = resolveStep st ctx.node := by
      funext p
      simp only [resolveStep, h1, h2]
    rw [hfun]

/-- Witness for C3 at the concrete scenario of the specification: the
resolved sequence for edge1 is exactly the singleton p1. -/
theorem c3_resolved_order_witness : exCtx.peers = [exP1] := by
  have h := (c3_resolved_order exStore "t" "edge1" exCtx [] rfl).1
  exact h.trans rfl

/-- C4: the override merge used for ResolvedPeer is a shallow field-by-field
merge of the override over the base: an override value wins on key collision
and keys only in the override are added; a key absent from the override
passes the base value through; applying the same override twice yields the
identical record; and the empty override is the identity. -/
theorem c4_override_shallow_merge (base ov : Rec)
    (hb : (dKeys base).Nodup) (hv : (dKeys ov).Nodup) :
    (∀ k v, dGet ov k = some v → dGet (dUpdate base ov) k = some v) ∧
    (∀ k, dGet ov k = none → dGet (dUpdate base ov) k = dGet base k) ∧
    dUpdate (dUpdate base ov) ov = dUpdate base ov ∧
    dUpdate base ([] : Rec) = base := by
  refine ⟨?_, ?_, dUpdate_idem base ov hb hv, dUpdate_nil base⟩
  · intro k v hk
    rw [dGet_dUpdate base ov k hv, hk]
  · intro k hk
    exact dGet_dUpdate_none base ov k hk

/-- Witness for C4: overriding the enabled field of p2 replaces its value. -/
theorem c4_override_shallow_merge_witness :
    dGet (dUpdate exP2 [("enabled", Val.vBool false)]) "enabled" =
      some (Val.vBool false) := by
  have h := c4_override_shallow_merge exP2 [("enabled", Val.vBool false)]
    (by decide) (by decide)
  exact h.1 "enabled" (Val.vBool false) rfl

/-- C5: a loaded peer appears in the node's context exactly when its
effective enabled flag after override application holds; the flag defaults
to true when absent from both base and override, and an override setting
enabled to true re-includes a base-disabled peer. -/
theorem c5_enabled_gate (st : Store) (now n : String) (ctx : Ctx) (warns : List String)
    (h : build_context st now n = .ok (ctx, warns)) (p : String) (base : Rec)
    (hp : p ∈ peerNamesOf ctx.node) (hl : load_peer st p = .ok base) :
    (effEnabled (dUpdate base (overrideFor ctx.node p)) = true →
       dUpdate base (overrideFor ctx.node p) ∈ ctx.peers) ∧
    (effEnabled (dUpdate base (overrideFor ctx.node p)) = false →
       dUpdate base (overrideFor ctx.node p) ∉ ctx.peers) ∧
    (dGet base "enabled" = none → dGet (overrideFor ctx.node p) "enabled" = none →
       effEnabled (dUpdate base (overrideFor ctx.node p)) = true) ∧
    ((dKeys (overrideFor ctx.node p)).Nodup →
       dGet (overrideFor ctx.node p) "enabled" = some (.vBool true) →
       effEnabled (dUpdate base (overrideFor ctx.node p)) = true) := by
  obtain ⟨_, _, hpeers, _, _, _⟩ := build_context_inv st now n ctx warns h
  refine ⟨?_, ?_, ?_, ?_⟩
  · intro he
    rw [hpeers, resolvePeers_eq]
    exact List.mem_filterMap.mpr ⟨p, hp, resolveStep_of_enabled st ctx.node p base hl he⟩
  · intro he hmem
    rw [hpeers] at hmem
    have htrue := effEnabled_of_mem_resolvePeers st ctx.node (peerNamesOf ctx.node) _ hmem
    rw [he] at htrue
    exact absurd htrue (by simp)
  · intro hb hov
    unfold effEnabled
    rw [dGet_dUpdate_none base (overrideFor ctx.node p) "enabled" hov, hb]
  · intro hnd hov
    unfold effEnabled
    rw [dGet_dUpdate base (overrideFor ctx.node p) "enabled" hnd, hov]
    rfl

/-- Witness for C5: the base-disabled peer p3 is re-included for edge2 by its
enabling override. -/
theorem c5_enabled_gate_witness : exP3r ∈ exCtx2.peers := by
  have h := c5_enabled_gate exStore2 "t" "edge2" exCtx2 [] rfl "p3" exP3 (by decide) rfl
  exact h.1 rfl

/-- C6: resolution never mutates a stored record: every peer appearing in a
context is a derived value, the stored base record merged with that node's
own override; a node's resolution of a shared peer is computed from the
stored base regardless of any other node's overrides; and in a multi-node
run every node's result equals the one obtained by resolving that node
against the original, unchanged store. -/
theorem c6_store_immutable (render : Ctx → Except Err String) (st : Store)
    (now : String) (fs : FS) :
    (∀ n ctx warns, build_context st now n = .ok (ctx, warns) →
       ∀ rp ∈ ctx.peers, ∃ p base, p ∈ peerNamesOf ctx.node ∧
         load_peer st p = .ok base ∧ rp = dUpdate base (overrideFor ctx.node p)) ∧
    (∀ n ctx warns q base, build_context st now n = .ok (ctx, warns) →
       load_peer st q = .ok base → q ∈ peerNamesOf ctx.node →
       effEnabled (dUpdate base (overrideFor ctx.node q)) = true →
       dUpdate base (overrideFor ctx.node q) ∈ ctx.peers) ∧
    (∀ outdir n cfg, (n, cfg) ∈ (generate_all render st now fs outdir).1 →
       ∃ logs, render_config render st now n = .ok (cfg, logs)) := by
  refine ⟨?_, ?_, ?_⟩
  · intro n ctx warns h rp hrp
    obtain ⟨_, _, hpeers, _, _, _⟩ := build_context_inv st now n ctx warns h
    rw [hpeers, resolvePeers_eq] at hrp
    obtain ⟨q, hq, hstep⟩ := List.mem_filterMap.mp hrp
    obtain ⟨b, hb, heq, _⟩ := resolveStep_some st ctx.node q rp hstep
    exact ⟨q, b, hq, hb, heq⟩
  · intro n ctx warns q base h hl hq he
    obtain ⟨_, _, hpeers, _, _, _⟩ := build_context_inv st now n ctx warns h
    rw [hpeers, resolvePeers_eq]
    exact List.mem_filterMap.mpr ⟨q, hq, resolveStep_of_enabled st ctx.node q base hl he⟩
  · intro outdir n cfg hmem
    have hconf : (generate_all render st now fs outdir).1 =
        (list_nodes st).filterMap (fun m =>
          match render_config render st now m with
          | .ok cw => some (m, cw.1)
          | .error _ => none) := by
      cases outdir with
      | none => exact genAllGo_configs render st now ["output"] (list_nodes st) fs
      | some d => exact genAllGo_configs render st now d (list_nodes st) fs
    rw [hconf] at hmem
    obtain ⟨m, _, hm⟩ := List.mem_filterMap.mp hmem
    cases hr : render_config render st now m with
    | error e => rw [hr] at hm; exact absurd hm (by simp)
    | ok cw =>
        rw [hr] at hm
        obtain ⟨config, logs⟩ := cw
        simp only [Option.some.injEq, Prod.mk.injEq] at hm
        obtain ⟨hm1, hm2⟩ := hm
        subst hm1
        subst hm2
        exact ⟨logs, hr⟩

/-- Witness for C6: in a one-node generate-all run, the result recorded for
edge1 is exactly the one obtained by rendering edge1 against the original
store. -/
theorem c6_store_immutable_witness :
    ∃ logs, render_config (fun _ => Except.ok "CFG") exStore "t" "edge1" =
      .ok ("CFG", logs) := by
  have h := (c6_store_immutable (fun _ => Except.ok "CFG") exStore "t" (fun _ => none)).2.2
  refine h none "edge1" "CFG" ?_
  have he : (generate_all (fun _ => Except.ok "CFG") exStore "t" (fun _ => none) none).1
      = [("edge1", "CFG")] := rfl
  rw [he]
  exact List.mem_singleton.mpr rfl

/-- C7: validate_config classifies the checker outcome as the claim states:
exit code 0 is valid, a nonzero exit is invalid with the captured diagnostic,
a missing checker binary is a soft pass, a timeout is a failure with a
timeout reason, and the transient file is removed on every path. -/
theorem c7_validator_classification (checker : String → CheckerOutcome) (config : String) :
    (validate_config checker config).2.1 = none ∧
    (∀ s, checker config = .exited 0 s → (validate_config checker config).1 = true) ∧
    (∀ c s, checker config = .exited (c + 1) s →
       (validate_config checker config).1 = false ∧
       ("Configuration validation failed:\n" ++ s) ∈ (validate_config checker config).2.2) ∧
    (checker config = .binaryMissing → (validate_config checker config).1 = true) ∧
    (checker config = .timedOut → (validate_config checker config).1 = false ∧
       "Warning: BIRD validation timed out" ∈ (validate_config checker config).2.2) := by
  refine ⟨rfl, ?_, ?_, ?_, ?_⟩
  · intro s h
    simp only [validate_config, h]
  · intro c s h
    constructor
    · simp only [validate_config, h]
    · simp only [validate_config, h]
      exact List.mem_singleton.mpr rfl
  · intro h
    simp only [validate_config, h]
  · intro h
    constructor
    · simp only [validate_config, h]
    · simp only [validate_config, h]
      exact List.mem_singleton.mpr rfl

/-- Witness for C7 at a nonzero checker exit: the result is a failure. -/
theorem c7_validator_classification_witness :
    (validate_config (fun _ => CheckerOutcome.exited 2 "syntax error") "conf").1 = false := by
  have h := (c7_validator_classification
    (fun _ => CheckerOutcome.exited 2 "syntax error") "conf").2.2.1 1 "syntax error" rfl
  exact h.1

/-- C8: for each of the three record loads, absence of the backing document
fails with a NotFound error while an existing but empty document loads as
the empty record, so the two conditions are distinguishable at every load. -/
theorem c8_absent_vs_empty (st : Store) (n p : String) :
    (st.globalDoc = none → ∃ m, load_global_config st = .error (.fileNotFound m)) ∧
    (st.globalDoc = some none → load_global_config st = .ok []) ∧
    (lookupDoc st.nodeDocs n = none → ∃ m, load_node st n = .error (.fileNotFound m)) ∧
    (lookupDoc st.nodeDocs n = some none → load_node st n = .ok []) ∧
    (lookupDoc st.peerDocs p = none → ∃ m, load_peer st p = .error (.fileNotFound m)) ∧
    (lookupDoc st.peerDocs p = some none → load_peer st p = .ok []) := by
  refine ⟨?_, ?_, ?_, ?_, ?_, ?_⟩
  · intro h; exact ⟨_, load_global_config_none st h⟩
  · intro h; unfold load_global_config; rw [h]; rfl
  · intro h; exact ⟨_, load_node_absent st n h⟩
  · intro h; unfold load_node load_yaml; rw [h]
  · intro h; exact ⟨_, load_peer_absent st p h⟩
  · intro h; unfold load_peer load_yaml; rw [h]

/-- Witness for C8: an empty global document loads as the empty record while
a missing peer document fails with NotFound. -/
theorem c8_absent_vs_empty_witness :
    load_global_config exStoreE = .ok [] ∧
    (∃ m, load_peer exStoreE "x" = .error (.fileNotFound m)) := by
  have h := c8_absent_vs_empty exStoreE "n" "x"
  exact ⟨h.2.1 rfl, h.2.2.2.2.1 rfl⟩

/-- C9: in a multi-node run the result map is exactly the listed nodes whose
generation succeeds, each with its rendered configuration, in list order; a
node whose generation fails is excluded and an error line carrying its
identity is logged, while every other node is still processed. -/
theorem c9_multi_node_containment (render : Ctx → Except Err String) (st : Store)
    (now : String) (fs : FS) (outdir : Option Path) :
    (generate_all render st now fs outdir).1 =
      (list_nodes st).filterMap (fun m =>
        match render_config render st now m with
        | .ok cw => some (m, cw.1)
        | .error _ => none) ∧
    (∀ m e, m ∈ list_nodes st → render_config render st now m = .error e →
       ("Error generating config for " ++ m ++ ": " ++ errMsg e) ∈
         (generate_all render st now fs outdir).2.2) := by
  cases outdir with
  | none =>
      exact ⟨genAllGo_configs render st now ["output"] (list_nodes st) fs,
        fun m e hm he => genAllGo_error_log render st now ["output"] (list_nodes st) m e hm he fs⟩
  | some d =>
      exact ⟨genAllGo_configs render st now d (list_nodes st) fs,
        fun m e hm he => genAllGo_error_log render st now d (list_nodes st) m e hm he fs⟩

/-- Witness for C9: a failing render for edge1 leaves the error line naming
edge1 in the run's log. -/
theorem c9_multi_node_containment_witness :
    ("Error generating config for " ++ "edge1" ++ ": " ++ errMsg (Err.templateError "boom")) ∈
      (generate_all (fun _ => Except.error (Err.templateError "boom")) exStore "t"
        (fun _ => none) none).2.2 := by
  have h := (c9_multi_node_containment (fun _ => Except.error (Err.templateError "boom"))
    exStore "t" (fun _ => none) none).2
  exact h "edge1" (Err.templateError "boom") (by decide) rfl

/-- C10: a node record lacking the peers key resolves to a context with an
empty peer sequence (and no warnings), resolution succeeding whenever the
global and node documents exist; a missing overrides key, or an overrides
map without an entry for a peer, yields the empty override for that peer. -/
theorem c10_missing_keys_default (st : Store) (now n : String) :
    (∀ gd nd, st.globalDoc = some gd → lookupDoc st.nodeDocs n = some nd →
       ∃ ctx warns, build_context st now n = .ok (ctx, warns)) ∧
    (∀ ctx warns, build_context st now n = .ok (ctx, warns) →
       dGet ctx.node "peers" = none → ctx.peers = [] ∧ warns = []) ∧
    (∀ nc : Rec, ∀ p, dGet nc "overrides" = none → overrideFor nc p = []) ∧
    (∀ nc : Rec, ∀ ovs p, dGet nc "overrides" = some (.vDict ovs) → dGet ovs p = none →
       overrideFor nc p = []) := by
  refine ⟨?_, ?_, ?_, ?_⟩
  · intro gd nd hg hn
    obtain ⟨g, hg'⟩ := load_global_config_some st gd hg
    obtain ⟨nd', hn'⟩ := load_node_present st n nd hn
    exact ⟨_, _, build_context_ok st now n g nd' hg' hn'⟩
  · intro ctx warns h hpkey
    obtain ⟨_, _, hpeers, hwarns, _, _⟩ := build_context_inv st now n ctx warns h
    have hnames : peerNamesOf ctx.node = [] := by
      unfold peerNamesOf
      rw [hpkey]
    rw [hpeers, hwarns, hnames]
    exact ⟨rfl, rfl⟩
  · intro nc p h
    unfold overrideFor
    rw [h]
  · intro nc ovs p h1 h2
    simp only [overrideFor, h1, h2]

/-- Witness for C10: the empty node document resolves successfully with no
peers, and the empty record yields the empty override. -/
theorem c10_missing_keys_default_witness :
    (∃ ctx warns, build_context exStoreE "t" "n" = .ok (ctx, warns)) ∧
    overrideFor [] "p1" = [] := by
  have h := c10_missing_keys_default exStoreE "t" "n"
  exact ⟨h.1 none none rfl rfl, h.2.2.1 [] "p1" rfl⟩

end Aegis
